import Mathlib

/-! Verification of the reconciliation core of `src/main.py`: the PO
deduction ledger, the per-transaction PO-eligibility window, the PO
matcher/aggregator, the COMMON-group consolidation rules and the
department-override store.  Monetary amounts are modelled as rationals
and calendar dates as integer day numbers (proleptic Gregorian day
counts). -/

namespace ErgodeReconcile

/-- A row of the append-only deduction ledger (`records/po_deductions`):
`PO_Number` and `Deduction_Amount`.  The batch id, date, reason and
timestamp columns influence no computation and are omitted. -/
structure Deduction where
  po : String
  amount : ℚ
deriving DecidableEq

/-- Sum of all `Deduction_Amount` rows recorded for one PO number
(first component of `get_po_available_balance`). -/
def totalDeductions (l : List Deduction) (po : String) : ℚ :=
  ((l.filter (fun d => d.po == po)).map Deduction.amount).sum

/-- Available balance of a PO: the original amount minus all recorded
deductions (second component of `get_po_available_balance`). -/
def availableBalance (l : List Deduction) (po : String) (base : ℚ) : ℚ :=
  base - totalDeductions l po

/-- The three `ValueError` outcomes raised by `save_po_deduction`. -/
inductive DeductionError where
  | invalidAmount
  | insufficientBalance
  | depletedPO
deriving DecidableEq

/-- `save_po_deduction`: validates in the order the code performs the
checks (`amount <= 0`, then `amount > available_balance`, then
`available_balance <= 0`), appends the new row on success, and returns
the new ledger together with `available_balance - amount`. -/
def saveDeduction (l : List Deduction) (po : String) (amount : ℚ)
    (base : ℚ) : Except DeductionError (List Deduction × ℚ) :=
  if amount ≤ 0 then .error .invalidAmount
  else
    if availableBalance l po base < amount then .error .insufficientBalance
    else if availableBalance l po base ≤ 0 then .error .depletedPO
    else .ok (l ++ [⟨po, amount⟩], availableBalance l po base - amount)

/-- One deduction request `(po_number, amount)` processed against the PO
table `basef` (each PO number mapped to its original amount): on success
the ledger with the appended row is kept, on a `ValueError` the ledger
is returned unchanged. -/
def processReq (basef : String → ℚ) (l : List Deduction)
    (r : String × ℚ) : List Deduction :=
  match saveDeduction l r.1 r.2 (basef r.1) with
  | .ok res => res.1
  | .error _ => l

/-- A sequence of deduction requests, processed one at a time, each one
re-reading the balance from the ledger produced by the previous one. -/
def processAll (basef : String → ℚ) (l : List Deduction)
    (reqs : List (String × ℚ)) : List Deduction :=
  reqs.foldl (processReq basef) l

theorem totalDeductions_append (l : List Deduction) (d : Deduction)
    (q : String) :
    totalDeductions (l ++ [d]) q =
      totalDeductions l q + (if d.po = q then d.amount else 0) := by
  by_cases h : d.po = q <;>
    simp [totalDeductions, List.filter_append, h]

theorem availableBalance_processReq_nonneg (basef : String → ℚ)
    (po : String) (l : List Deduction) (r : String × ℚ)
    (h : 0 ≤ availableBalance l po (basef po)) :
    0 ≤ availableBalance (processReq basef l r) po (basef po) := by
  by_cases h1 : r.2 ≤ 0
  · simpa [processReq, saveDeduction, h1] using h
  · by_cases h2 : availableBalance l r.1 (basef r.1) < r.2
    · simpa [processReq, saveDeduction, h1, h2] using h
    · by_cases h3 : availableBalance l r.1 (basef r.1) ≤ 0
      · simpa [processReq, saveDeduction, h1, h2, h3] using h
      · simp only [processReq, saveDeduction, if_neg h1, if_neg h2, if_neg h3]
        simp only [availableBalance, totalDeductions_append] at *
        by_cases hq : r.1 = po
        · subst hq
          simp only [eq_self_iff_true, if_true]
          linarith [not_lt.mp h2]
        · simp only [if_neg hq, add_zero]
          linarith [h]

/-- C1: for every purchase order, the available balance (original amount
minus the sum of recorded deductions) stays nonnegative across any
sequence of deduction requests processed by `save_po_deduction`, and a
request exceeding the current available balance is rejected with an
error and leaves the ledger unchanged (no row appended). -/
theorem available_balance_nonneg_and_reject_unchanged
    (basef : String → ℚ) (po : String) (l : List Deduction)
    (reqs : List (String × ℚ))
    (h : 0 ≤ availableBalance l po (basef po)) :
    0 ≤ availableBalance (processAll basef l reqs) po (basef po) ∧
      ∀ a : ℚ, availableBalance l po (basef po) < a →
        (∃ e, saveDeduction l po a (basef po) = .error e) ∧
          processReq basef l (po, a) = l := by
  constructor
  · unfold processAll
    induction reqs generalizing l with
    | nil => exact h
    | cons r rs ih =>
        exact ih (processReq basef l r)
          (availableBalance_processReq_nonneg basef po l r h)
  · intro a ha
    by_cases hle : a ≤ 0
    · refine ⟨⟨.invalidAmount, ?_⟩, ?_⟩
      · simp [saveDeduction, hle]
      · simp [processReq, saveDeduction, hle]
    · refine ⟨⟨.insufficientBalance, ?_⟩, ?_⟩
      · simp [saveDeduction, hle, ha]
      · simp [processReq, saveDeduction, hle, ha]

/-- Witness for C1: a PO with original amount 1000 processed through the
requests 400, 700 and 600 keeps a nonnegative balance, and a request of
1200 against the initial balance of 1000 is rejected with the ledger
unchanged. -/
theorem available_balance_nonneg_and_reject_unchanged_witness :
    (0 ≤ availableBalance [] "PO1" ((fun _ => (1000 : ℚ)) "PO1")) ∧
      (0 ≤ availableBalance
        (processAll (fun _ => (1000 : ℚ)) []
          [("PO1", 400), ("PO1", 700), ("PO1", 600)]) "PO1"
        ((fun _ => (1000 : ℚ)) "PO1")) ∧
      availableBalance [] "PO1" ((fun _ => (1000 : ℚ)) "PO1") < 1200 ∧
      processReq (fun _ => (1000 : ℚ)) [] ("PO1", 1200) = [] := by
  have h0 : 0 ≤ availableBalance [] "PO1" ((fun _ => (1000 : ℚ)) "PO1") := by
    norm_num [availableBalance, totalDeductions]
  have hmain := available_balance_nonneg_and_reject_unchanged
    (fun _ => (1000 : ℚ)) "PO1" []
    [("PO1", 400), ("PO1", 700), ("PO1", 600)] h0
  have hlt : availableBalance [] "PO1" ((fun _ => (1000 : ℚ)) "PO1")
      < 1200 := by
    norm_num [availableBalance, totalDeductions]
  exact ⟨h0, hmain.1, hlt, (hmain.2 1200 hlt).2⟩

/-- C2 counterexample: after consuming the full base amount of 1000 the
available balance is 0, yet a further positive deduction request of 50
is rejected by `save_po_deduction` with the insufficient-balance error,
not the depleted-PO error the claim requires. -/
theorem deduction_error_order_counterexample :
    availableBalance [⟨"PO1", 400⟩, ⟨"PO1", 600⟩] "PO1" 1000 ≤ 0 ∧
      (0 : ℚ) < 50 ∧
      saveDeduction [⟨"PO1", 400⟩, ⟨"PO1", 600⟩] "PO1" 50 1000 =
        .error .insufficientBalance ∧
      DeductionError.insufficientBalance ≠ DeductionError.depletedPO := by
  refine ⟨?_, by norm_num, ?_, by decide⟩
  · norm_num [availableBalance, totalDeductions]
  · have hbal : availableBalance [⟨"PO1", 400⟩, ⟨"PO1", 600⟩] "PO1" 1000
        < 50 := by
      norm_num [availableBalance, totalDeductions]
    simp [saveDeduction, hbal]

/-- C2 (amended): `save_po_deduction` fails with the invalid-amount
error when the amount is ≤ 0; for a positive amount it fails with the
insufficient-balance error exactly when the amount exceeds the current
available balance — in particular a depleted PO (balance ≤ 0) rejects
every positive deduction with the insufficient-balance error, the
depleted-PO error being unreachable for positive amounts — and
otherwise it appends exactly one row and returns balance − amount. -/
theorem save_deduction_amended (l : List Deduction) (po : String)
    (amount base : ℚ) :
    (amount ≤ 0 → saveDeduction l po amount base = .error .invalidAmount) ∧
      (0 < amount → availableBalance l po base < amount →
        saveDeduction l po amount base = .error .insufficientBalance) ∧
      (0 < amount → amount ≤ availableBalance l po base →
        saveDeduction l po amount base =
          .ok (l ++ [⟨po, amount⟩], availableBalance l po base - amount)) ∧
      (0 < amount → saveDeduction l po amount base ≠ .error .depletedPO) := by
  refine ⟨?_, ?_, ?_, ?_⟩
  · intro hle
    simp [saveDeduction, hle]
  · intro hpos hlt
    simp [saveDeduction, not_le.mpr hpos, hlt]
  · intro hpos hle
    have h1 : ¬ availableBalance l po base < amount := not_lt.mpr hle
    have h2 : ¬ availableBalance l po base ≤ 0 :=
      not_le.mpr (lt_of_lt_of_le hpos hle)
    simp [saveDeduction, not_le.mpr hpos, h1, h2]
  · intro hpos
    by_cases hlt : availableBalance l po base < amount
    · simp [saveDeduction, not_le.mpr hpos, hlt]
    · have h2 : ¬ availableBalance l po base ≤ 0 :=
        not_le.mpr (lt_of_lt_of_le hpos (not_lt.mp hlt))
      simp [saveDeduction, not_le.mpr hpos, hlt, h2]

/-- Witness for C2 (amended), replaying the spec scenario on a PO with
base amount 1000: deducting 400 succeeds with balance 600; deducting 700
is then rejected with the insufficient-balance error; deducting 600
succeeds with balance 0; a further deduction of 50 is rejected with the
insufficient-balance error. -/
theorem save_deduction_amended_witness :
    saveDeduction [] "PO1" 400 1000 = .ok ([⟨"PO1", 400⟩], 600) ∧
      saveDeduction [⟨"PO1", 400⟩] "PO1" 700 1000 =
        .error .insufficientBalance ∧
      saveDeduction [⟨"PO1", 400⟩] "PO1" 600 1000 =
        .ok ([⟨"PO1", 400⟩, ⟨"PO1", 600⟩], 0) ∧
      saveDeduction [⟨"PO1", 400⟩, ⟨"PO1", 600⟩] "PO1" 50 1000 =
        .error .insufficientBalance := by
  refine ⟨?_, ?_, ?_, ?_⟩
  · have h := (save_deduction_amended [] "PO1" 400 1000).2.2.1
      (by norm_num)
      (by norm_num [availableBalance, totalDeductions])
    rw [h]
    norm_num [availableBalance, totalDeductions]
  · exact (save_deduction_amended [⟨"PO1", 400⟩] "PO1" 700 1000).2.1
      (by norm_num)
      (by norm_num [availableBalance, totalDeductions])
  · have h := (save_deduction_amended [⟨"PO1", 400⟩] "PO1" 600 1000).2.2.1
      (by norm_num)
      (by norm_num [availableBalance, totalDeductions])
    rw [h]
    norm_num [availableBalance, totalDeductions]
  · exact (save_deduction_amended
        [⟨"PO1", 400⟩, ⟨"PO1", 600⟩] "PO1" 50 1000).2.1
      (by norm_num)
      (by norm_num [availableBalance, totalDeductions])

/-- Start of the PO-eligibility window of a transaction:
`CC_Txn_Date - Payment_Terms - grace_days`. -/
def windowStart (t p g : ℤ) : ℤ := t - p - g

/-- End of the PO-eligibility window: the transaction date itself when
the payment terms are positive, otherwise the transaction date plus the
grace days. -/
def windowEnd (t p g : ℤ) : ℤ := if 0 < p then t else t + g

/-- Proleptic Gregorian day number of a civil date (days since
1970-01-01), mirroring the calendar arithmetic of the timestamp library
used by the code. -/
def daysFromCivil (y m d : ℤ) : ℤ :=
  let y2 : ℤ := if m ≤ 2 then y - 1 else y
  let era : ℤ := (if 0 ≤ y2 then y2 else y2 - 399) / 400
  let yoe : ℤ := y2 - era * 400
  let mp : ℤ := (m + 9) % 12
  let doy : ℤ := (153 * mp + 2) / 5 + d - 1
  let doe : ℤ := yoe * 365 + yoe / 4 - yoe / 100 + doy
  era * 146097 + doe - 719468

/-- C3: the PO-eligibility window of a transaction with date `t`,
payment-terms days `p ≥ 0` and grace days `g ≥ 0` is
`[t - p - g, t]` when `p > 0` and `[t - g, t + g]` when `p = 0`;
concretely, with grace 5 the window of 2024-03-10 at terms 0 is
[2024-03-05, 2024-03-15] and at terms 10 it is [2024-02-24, 2024-03-10]. -/
theorem transaction_window_rule (t p g : ℤ) (hp : 0 ≤ p) (hg : 0 ≤ g) :
    (0 < p → windowStart t p g = t - p - g ∧ windowEnd t p g = t) ∧
      (p = 0 → windowStart t p g = t - g ∧ windowEnd t p g = t + g) ∧
      windowStart (daysFromCivil 2024 3 10) 0 5 = daysFromCivil 2024 3 5 ∧
      windowEnd (daysFromCivil 2024 3 10) 0 5 = daysFromCivil 2024 3 15 ∧
      windowStart (daysFromCivil 2024 3 10) 10 5 = daysFromCivil 2024 2 24 ∧
      windowEnd (daysFromCivil 2024 3 10) 10 5 = daysFromCivil 2024 3 10 := by
  have hg2 : 0 ≤ g := hg
  have hp2 : 0 ≤ p := hp
  refine ⟨?_, ?_, by decide, by decide, by decide, by decide⟩
  · intro hpos
    simp [windowStart, windowEnd, hpos]
  · intro hzero
    subst hzero
    simp [windowStart, windowEnd]

/-- Witness for C3 at the spec instance: transaction date 2024-03-10,
payment terms 10, grace 5. -/
theorem transaction_window_rule_witness :
    (0 : ℤ) ≤ 10 ∧ (0 : ℤ) ≤ 5 ∧
      ((0 : ℤ) < 10 →
        windowStart (daysFromCivil 2024 3 10) 10 5 =
            daysFromCivil 2024 3 10 - 10 - 5 ∧
          windowEnd (daysFromCivil 2024 3 10) 10 5 =
            daysFromCivil 2024 3 10) := by
  refine ⟨by norm_num, by norm_num, ?_⟩
  exact (transaction_window_rule (daysFromCivil 2024 3 10) 10 5
    (by norm_num) (by norm_num)).1

/-- A mapped CC transaction row as it enters the matching step of
`render_reco`: reference id, transaction date, vendor prefix, dept,
numeric payment terms and CC amount. -/
structure TxnRow where
  refId : String
  txnDate : ℤ
  vendor : String
  dept : String
  terms : ℤ
  amt : ℚ
deriving DecidableEq

/-- A purchase-order row (`records/po`): PO number, PO date, vendor
prefix, dept, base `PO_Amount` and the `CC_Fee` rate snapshot stored
with the PO. -/
structure PORow where
  poNumber : String
  poDate : ℤ
  vendor : String
  dept : String
  poAmount : ℚ
  ccFee : ℚ
deriving DecidableEq

/-- Aggregation key of a ReconciliationGroup:
`(CC_Txn_Date, Vendor_Prefix, Dept, Payment_Terms)`. -/
abbrev GroupKey := ℤ × String × String × ℤ

/-- Group key of a transaction row. -/
def groupKey (t : TxnRow) : GroupKey := (t.txnDate, t.vendor, t.dept, t.terms)

/-- `Adjusted_PO_Amount`: the PO base amount minus its total recorded
deductions. -/
def adjustedAmount (dl : List Deduction) (p : PORow) : ℚ :=
  p.poAmount - totalDeductions dl p.poNumber

/-- `Comparison_Amount` of a PO after deductions:
`Adjusted_PO_Amount * (1 + CC_Fee)`. -/
def comparisonAmount (dl : List Deduction) (p : PORow) : ℚ :=
  adjustedAmount dl p * (1 + p.ccFee)

/-- The PO candidate set after the depletion filter: rows with
`Adjusted_PO_Amount > 0` (fully depleted POs are excluded). -/
def activePOs (dl : List Deduction) (pos : List PORow) : List PORow :=
  pos.filter (fun p => decide (0 < adjustedAmount dl p))

/-- The valid merge rows of `render_reco`: every transaction joined to
every active PO sharing its vendor prefix and dept whose PO date falls
inside the transaction's window (`valid_mask`), in merge order. -/
def matchRows (g : ℤ) (dl : List Deduction) (txns : List TxnRow)
    (pos : List PORow) : List (TxnRow × PORow) :=
  txns.flatMap (fun t =>
    ((activePOs dl pos).filter (fun p =>
      p.vendor == t.vendor && p.dept == t.dept &&
        decide (windowStart t.txnDate t.terms g ≤ p.poDate) &&
        decide (p.poDate ≤ windowEnd t.txnDate t.terms g))).map
      (fun p => (t, p)))

/-- `drop_duplicates(subset=["PO_Number"], keep="first")` on the valid
merge rows: keep the first row for each PO number. -/
def dedupByPO : List (TxnRow × PORow) → List String → List (TxnRow × PORow)
  | [], _ => []
  | r :: rs, seen =>
      if r.2.poNumber ∈ seen then dedupByPO rs seen
      else r :: dedupByPO rs (r.2.poNumber :: seen)

/-- The deduplicated matched rows (`po_merge_unique`). -/
def matchedUnique (g : ℤ) (dl : List Deduction) (txns : List TxnRow)
    (pos : List PORow) : List (TxnRow × PORow) :=
  dedupByPO (matchRows g dl txns pos) []

/-- `Total_PO_Amount` of one group: the sum of the fee- and
deduction-adjusted comparison amounts of the deduplicated matched rows
carrying that group key. -/
def totalPOAmount (g : ℤ) (dl : List Deduction) (txns : List TxnRow)
    (pos : List PORow) (k : GroupKey) : ℚ :=
  (((matchedUnique g dl txns pos).filter
      (fun r => decide (groupKey r.1 = k))).map
    (fun r => comparisonAmount dl r.2)).sum

/-- `Original_PO_Amount_Sum` of one group: the sum of the original,
pre-deduction PO base amounts of the deduplicated matched rows. -/
def originalPOSum (g : ℤ) (dl : List Deduction) (txns : List TxnRow)
    (pos : List PORow) (k : GroupKey) : ℚ :=
  (((matchedUnique g dl txns pos).filter
      (fun r => decide (groupKey r.1 = k))).map
    (fun r => r.2.poAmount)).sum

/-- `Total_CC_Charge` of one group: the group's original PO amount sum
times the master `CC_Fee` rate looked up by (vendor prefix, dept). -/
def totalCCCharge (fee : String → String → ℚ) (g : ℤ)
    (dl : List Deduction) (txns : List TxnRow) (pos : List PORow)
    (k : GroupKey) : ℚ :=
  originalPOSum g dl txns pos k * fee k.2.1 k.2.2.1

/-- `drop_duplicates(subset=["CC_Reference_ID"], keep="first")` on the
transaction rows before summing CC amounts. -/
def dedupByRef : List TxnRow → List String → List TxnRow
  | [], _ => []
  | t :: ts, seen =>
      if t.refId ∈ seen then dedupByRef ts seen
      else t :: dedupByRef ts (t.refId :: seen)

/-- `Total_CC_Amount` of one group: the sum of the CC amounts of the
deduplicated transactions carrying that group key. -/
def totalCCAmount (txns : List TxnRow) (k : GroupKey) : ℚ :=
  (((dedupByRef txns []).filter (fun t => decide (groupKey t = k))).map
    (fun t => t.amt)).sum

/-- The `Flag` column: `np.where(Total_CC_Amount > Total_PO_Amount,
"Red Flag", "Green Flag")`. -/
def flag (cc po : ℚ) : String := if po < cc then "Red Flag" else "Green Flag"

/-- The flag of one reconciliation group. -/
def groupFlag (g : ℤ) (dl : List Deduction) (txns : List TxnRow)
    (pos : List PORow) (k : GroupKey) : String :=
  flag (totalCCAmount txns k) (totalPOAmount g dl txns pos k)

theorem dedupByPO_countP_of_mem (l : List (TxnRow × PORow))
    (seen : List String) (n : String) (h : n ∈ seen) :
    ((dedupByPO l seen).countP (fun r => r.2.poNumber == n)) = 0 := by
  induction l generalizing seen with
  | nil => simp [dedupByPO]
  | cons r rs ih =>
      simp only [dedupByPO]
      by_cases hmem : r.2.poNumber ∈ seen
      · rw [if_pos hmem]
        exact ih seen h
      · rw [if_neg hmem]
        have hne : (r.2.poNumber == n) = false :=
          beq_eq_false_iff_ne.mpr (fun he => hmem (he ▸ h))
        rw [List.countP_cons,
          ih (r.2.poNumber :: seen) (List.mem_cons_of_mem _ h), hne]
        simp

theorem dedupByPO_countP_of_not_mem (l : List (TxnRow × PORow))
    (seen : List String) (n : String) (h : n ∉ seen) :
    ((dedupByPO l seen).countP (fun r => r.2.poNumber == n)) =
      if n ∈ l.map (fun r => r.2.poNumber) then 1 else 0 := by
  induction l generalizing seen with
  | nil => simp [dedupByPO]
  | cons r rs ih =>
      simp only [dedupByPO, List.map_cons, List.mem_cons]
      by_cases hmem : r.2.poNumber ∈ seen
      · rw [if_pos hmem]
        have hne : ¬ n = r.2.poNumber := fun he => h (he ▸ hmem)
        rw [ih seen h]
        by_cases hx : n ∈ List.map (fun r => r.2.poNumber) rs <;>
          simp [hx, hne]
      · rw [if_neg hmem, List.countP_cons]
        by_cases heq : n = r.2.poNumber
        · have hb : (r.2.poNumber == n) = true := beq_iff_eq.mpr heq.symm
          rw [dedupByPO_countP_of_mem rs (r.2.poNumber :: seen) n
            (by simp [heq]), hb]
          simp [heq]
        · have hb : (r.2.poNumber == n) = false :=
            beq_eq_false_iff_ne.mpr (fun he => heq he.symm)
          have hns : n ∉ r.2.poNumber :: seen := by
            simp only [List.mem_cons]
            rintro (he | hs)
            · exact heq he
            · exact h hs
          rw [ih (r.2.poNumber :: seen) hns, hb]
          by_cases hx : n ∈ List.map (fun r => r.2.poNumber) rs <;>
            simp [hx, heq]

theorem countP_filter_le {α : Type} (l : List α) (p q : α → Bool) :
    ((l.filter q).countP p) ≤ l.countP p := by
  induction l with
  | nil => simp
  | cons a t ih =>
      by_cases hq : q a <;> by_cases hp : p a <;>
        simp [List.filter_cons, List.countP_cons, hq, hp] <;> omega

theorem activePOs_of_all_pos (dl : List Deduction) (pos : List PORow)
    (h : ∀ p ∈ pos, 0 < adjustedAmount dl p) :
    activePOs dl pos = pos :=
  List.filter_eq_self.mpr (fun p hp => decide_eq_true (h p hp))

/-- C4: the matched purchase orders are deduplicated by PO number before
summing, so a PO appearing among the valid merge rows occurs exactly
once in the deduplicated matched set, and hence contributes to the
total PO amount of any one reconciliation group at most once (exactly
once in the group that keeps its first match). -/
theorem matched_po_counted_once (g : ℤ) (dl : List Deduction)
    (txns : List TxnRow) (pos : List PORow) (n : String)
    (hmem : n ∈ (matchRows g dl txns pos).map (fun r => r.2.poNumber)) :
    ((matchedUnique g dl txns pos).countP
        (fun r => r.2.poNumber == n)) = 1 ∧
      ∀ k : GroupKey,
        (((matchedUnique g dl txns pos).filter
            (fun r => decide (groupKey r.1 = k))).countP
          (fun r => r.2.poNumber == n)) ≤ 1 := by
  have h1 := dedupByPO_countP_of_not_mem (matchRows g dl txns pos) [] n
    (by simp)
  rw [if_pos hmem] at h1
  refine ⟨h1, fun k => ?_⟩
  exact le_trans (countP_filter_le _ _ _) (le_of_eq h1)

/-- Witness for C4: a PO whose date lies inside the windows of two
transactions of the same group is counted once in the deduplicated
matched set. -/
theorem matched_po_counted_once_witness :
    ("P1" ∈ (matchRows 5 []
        [⟨"T1", 10, "V", "FBA", 0, 500⟩, ⟨"T2", 10, "V", "FBA", 0, 300⟩]
        [⟨"P1", 12, "V", "FBA", 450, 0⟩]).map
      (fun r => r.2.poNumber)) ∧
      ((matchedUnique 5 []
          [⟨"T1", 10, "V", "FBA", 0, 500⟩, ⟨"T2", 10, "V", "FBA", 0, 300⟩]
          [⟨"P1", 12, "V", "FBA", 450, 0⟩]).countP
        (fun r => r.2.poNumber == "P1")) = 1 := by
  have hact : activePOs [] [(⟨"P1", 12, "V", "FBA", 450, 0⟩ : PORow)] =
      [⟨"P1", 12, "V", "FBA", 450, 0⟩] := by
    refine activePOs_of_all_pos _ _ ?_
    intro p hp
    simp only [List.mem_singleton] at hp
    subst hp
    norm_num [adjustedAmount, totalDeductions]
  have hm : "P1" ∈ (matchRows 5 []
      [⟨"T1", 10, "V", "FBA", 0, 500⟩, ⟨"T2", 10, "V", "FBA", 0, 300⟩]
      [⟨"P1", 12, "V", "FBA", 450, 0⟩]).map
        (fun r => r.2.poNumber) := by
    simp [matchRows, hact, windowStart, windowEnd]
  exact ⟨hm, (matched_po_counted_once 5 []
    [⟨"T1", 10, "V", "FBA", 0, 500⟩, ⟨"T2", 10, "V", "FBA", 0, 300⟩]
    [⟨"P1", 12, "V", "FBA", 450, 0⟩] "P1" hm).1⟩

/-- C5: each group's `Total_CC_Charge` equals the sum over the distinct
matched POs of the group of the original, pre-deduction base amount
times the master CC-fee rate of the group's (vendor, dept); and as long
as every PO stays undepleted, changing the recorded deductions does not
alter the fee-charge figure. -/
theorem fee_charge_from_original_amounts (fee : String → String → ℚ)
    (g : ℤ) (dl : List Deduction) (txns : List TxnRow) (pos : List PORow)
    (k : GroupKey) :
    totalCCCharge fee g dl txns pos k =
        (((matchedUnique g dl txns pos).filter
            (fun r => decide (groupKey r.1 = k))).map
          (fun r => r.2.poAmount * fee k.2.1 k.2.2.1)).sum ∧
      ∀ dl2 : List Deduction,
        (∀ p ∈ pos, 0 < adjustedAmount dl p) →
        (∀ p ∈ pos, 0 < adjustedAmount dl2 p) →
        totalCCCharge fee g dl txns pos k =
          totalCCCharge fee g dl2 txns pos k := by
  constructor
  · rw [totalCCCharge, originalPOSum, ← List.sum_map_mul_right]
  · intro dl2 h1 h2
    have hact : activePOs dl pos = activePOs dl2 pos := by
      rw [activePOs_of_all_pos dl pos h1, activePOs_of_all_pos dl2 pos h2]
    have hmatch : matchRows g dl txns pos = matchRows g dl2 txns pos := by
      simp only [matchRows, hact]
    simp only [totalCCCharge, originalPOSum, matchedUnique, hmatch]

/-- Witness for C5: with a single PO of base 1000 and fee rate 3/100,
recording a deduction of 100 leaves the group's fee charge unchanged. -/
theorem fee_charge_from_original_amounts_witness :
    ((∀ p ∈ [(⟨"P1", 10, "V", "FBA", 1000, 0⟩ : PORow)],
        0 < adjustedAmount [] p) ∧
      (∀ p ∈ [(⟨"P1", 10, "V", "FBA", 1000, 0⟩ : PORow)],
        0 < adjustedAmount [⟨"P1", 100⟩] p)) ∧
      totalCCCharge (fun _ _ => (3 : ℚ)/100) 5 []
          [⟨"T1", 10, "V", "FBA", 0, 500⟩]
          [⟨"P1", 10, "V", "FBA", 1000, 0⟩] (10, "V", "FBA", 0) =
        totalCCCharge (fun _ _ => (3 : ℚ)/100) 5 [⟨"P1", 100⟩]
          [⟨"T1", 10, "V", "FBA", 0, 500⟩]
          [⟨"P1", 10, "V", "FBA", 1000, 0⟩] (10, "V", "FBA", 0) := by
  have h1 : ∀ p ∈ [(⟨"P1", 10, "V", "FBA", 1000, 0⟩ : PORow)],
      0 < adjustedAmount [] p := by
    intro p hp
    simp only [List.mem_singleton] at hp
    subst hp
    norm_num [adjustedAmount, totalDeductions]
  have h2 : ∀ p ∈ [(⟨"P1", 10, "V", "FBA", 1000, 0⟩ : PORow)],
      0 < adjustedAmount [⟨"P1", 100⟩] p := by
    intro p hp
    simp only [List.mem_singleton] at hp
    subst hp
    norm_num [adjustedAmount, totalDeductions]
  exact ⟨⟨h1, h2⟩,
    (fee_charge_from_original_amounts (fun _ _ => (3 : ℚ)/100) 5 []
      [⟨"T1", 10, "V", "FBA", 0, 500⟩]
      [⟨"P1", 10, "V", "FBA", 1000, 0⟩] (10, "V", "FBA", 0)).2
      [⟨"P1", 100⟩] h1 h2⟩

/-- C6: a group is flagged "Red Flag" exactly when its total CC amount
strictly exceeds its total PO amount and "Green Flag" otherwise; a
group with CC total 500 against a matched fee-adjusted PO amount of 450
is red, against 550 it is green. -/
theorem group_flag_red_iff_cc_exceeds_po :
    (∀ (g : ℤ) (dl : List Deduction) (txns : List TxnRow)
        (pos : List PORow) (k : GroupKey),
      (groupFlag g dl txns pos k = "Red Flag" ↔
          totalPOAmount g dl txns pos k < totalCCAmount txns k) ∧
        (groupFlag g dl txns pos k = "Green Flag" ↔
          ¬ totalPOAmount g dl txns pos k < totalCCAmount txns k)) ∧
      groupFlag 5 [] [⟨"T1", 10, "V", "FBA", 0, 500⟩]
        [⟨"P1", 10, "V", "FBA", 450, 0⟩] (10, "V", "FBA", 0) = "Red Flag" ∧
      groupFlag 5 [] [⟨"T1", 10, "V", "FBA", 0, 500⟩]
        [⟨"P1", 10, "V", "FBA", 550, 0⟩] (10, "V", "FBA", 0) =
          "Green Flag" := by
  have hcc : totalCCAmount [⟨"T1", 10, "V", "FBA", 0, 500⟩]
      (10, "V", "FBA", 0) = 500 := by
    simp [totalCCAmount, dedupByRef, groupKey]
  have hactR : activePOs [] [(⟨"P1", 10, "V", "FBA", 450, 0⟩ : PORow)] =
      [⟨"P1", 10, "V", "FBA", 450, 0⟩] := by
    refine activePOs_of_all_pos _ _ ?_
    intro p hp
    simp only [List.mem_singleton] at hp
    subst hp
    norm_num [adjustedAmount, totalDeductions]
  have hactG : activePOs [] [(⟨"P1", 10, "V", "FBA", 550, 0⟩ : PORow)] =
      [⟨"P1", 10, "V", "FBA", 550, 0⟩] := by
    refine activePOs_of_all_pos _ _ ?_
    intro p hp
    simp only [List.mem_singleton] at hp
    subst hp
    norm_num [adjustedAmount, totalDeductions]
  have hpoR : totalPOAmount 5 [] [⟨"T1", 10, "V", "FBA", 0, 500⟩]
      [⟨"P1", 10, "V", "FBA", 450, 0⟩] (10, "V", "FBA", 0) = 450 := by
    norm_num [totalPOAmount, matchedUnique, matchRows, hactR, dedupByPO,
      windowStart, windowEnd, groupKey, comparisonAmount, adjustedAmount,
      totalDeductions]
  have hpoG : totalPOAmount 5 [] [⟨"T1", 10, "V", "FBA", 0, 500⟩]
      [⟨"P1", 10, "V", "FBA", 550, 0⟩] (10, "V", "FBA", 0) = 550 := by
    norm_num [totalPOAmount, matchedUnique, matchRows, hactG, dedupByPO,
      windowStart, windowEnd, groupKey, comparisonAmount, adjustedAmount,
      totalDeductions]
  refine ⟨fun g dl txns pos k => ?_, ?_, ?_⟩
  · unfold groupFlag flag
    by_cases h : totalPOAmount g dl txns pos k < totalCCAmount txns k <;>
      simp [h]
  · simp only [groupFlag, hpoR, hcc]
    norm_num [flag]
  · simp only [groupFlag, hpoG, hcc]
    norm_num [flag]

/-- One line of the COMMON consolidation summary (`display_df`): the
normalized description, the group's summed amount, the dept column and
the apply checkbox. -/
structure CommonGroupRow where
  desc : String
  amount : ℚ
  dept : String
  applyFlag : Bool
deriving DecidableEq

/-- `drop_duplicates(subset=["CC_Reference_ID"], keep="first")` on the
(reference id, amount) pairs of one description group. -/
def dedupRefPairs : List (String × ℚ) → List String → List (String × ℚ)
  | [], _ => []
  | r :: rs, seen =>
      if r.1 ∈ seen then dedupRefPairs rs seen
      else r :: dedupRefPairs rs (r.1 :: seen)

/-- The summed amount of one description group: amounts are summed after
deduplicating rows by reference id. -/
def groupSummedAmount (rows : List (String × ℚ)) : ℚ :=
  ((dedupRefPairs rows []).map (fun r => r.2)).sum

/-- `auto_process_mask`: the description groups whose summed amount is
strictly below 100 are processed automatically. -/
def autoProcessRows (l : List CommonGroupRow) : List CommonGroupRow :=
  l.filter (fun r => decide (r.amount < 100))

/-- Forcing applied to every auto-processed row: dept `"FBM"` and the
apply flag set, with no user action. -/
def forceAutoFBM (r : CommonGroupRow) : CommonGroupRow :=
  { r with dept := "FBM", applyFlag := true }

/-- The auto-processed rows after forcing. -/
def processedAutoRows (l : List CommonGroupRow) : List CommonGroupRow :=
  (autoProcessRows l).map forceAutoFBM

/-- C7: a COMMON description group belongs to the auto-process set
exactly when its summed amount is strictly below 100; each such group is
assigned dept FBM (channel M) with its apply flag set, with no user
action, while a group whose summed amount is at least 100 is not
auto-processed.  A group whose deduplicated rows sum to 87.50 qualifies
and one summing to 250 does not. -/
theorem common_group_auto_assign (l : List CommonGroupRow)
    (r : CommonGroupRow) :
    (r ∈ autoProcessRows l ↔ r ∈ l ∧ r.amount < 100) ∧
      (r ∈ l → r.amount < 100 →
        forceAutoFBM r ∈ processedAutoRows l ∧
          (forceAutoFBM r).dept = "FBM" ∧
          (forceAutoFBM r).applyFlag = true) ∧
      (¬ r.amount < 100 → r ∉ autoProcessRows l) ∧
      groupSummedAmount [("r1", 50), ("r1", 50), ("r2", 37.5)] = 87.5 ∧
      (87.5 : ℚ) < 100 ∧ ¬ (250 : ℚ) < 100 := by
  have hmem : r ∈ autoProcessRows l ↔ r ∈ l ∧ r.amount < 100 := by
    simp [autoProcessRows, List.mem_filter]
  refine ⟨hmem, ?_, ?_, ?_, by norm_num, by norm_num⟩
  · intro hl hlt
    refine ⟨?_, rfl, rfl⟩
    exact List.mem_map_of_mem forceAutoFBM (hmem.mpr ⟨hl, hlt⟩)
  · intro hge hin
    exact hge ((hmem.mp hin).2)
  · have h21 : ¬ ("r2" = "r1") := by decide
    norm_num [groupSummedAmount, dedupRefPairs, h21]

/-- Witness for C7: in a summary with one group of amount 87.50 and one
of amount 250, the first is auto-processed as FBM with the apply flag
set and the second is not auto-processed. -/
theorem common_group_auto_assign_witness :
    forceAutoFBM ⟨"G1", 87.5, "", false⟩ ∈
        processedAutoRows
          [⟨"G1", 87.5, "", false⟩, ⟨"G2", 250, "", false⟩] ∧
      (forceAutoFBM ⟨"G1", 87.5, "", false⟩).dept = "FBM" ∧
      (forceAutoFBM ⟨"G1", 87.5, "", false⟩).applyFlag = true ∧
      (⟨"G2", 250, "", false⟩ : CommonGroupRow) ∉
        autoProcessRows
          [⟨"G1", 87.5, "", false⟩, ⟨"G2", 250, "", false⟩] := by
  have h1 := (common_group_auto_assign
    [⟨"G1", 87.5, "", false⟩, ⟨"G2", 250, "", false⟩]
    ⟨"G1", 87.5, "", false⟩).2.1 (by simp) (by norm_num)
  have h2 := (common_group_auto_assign
    [⟨"G1", 87.5, "", false⟩, ⟨"G2", 250, "", false⟩]
    ⟨"G2", 250, "", false⟩).2.2.1 (by norm_num)
  exact ⟨h1.1, h1.2.1, h1.2.2, h2⟩

/-- The most frequent value among the saved depts of one description
group, mirroring `value_counts().index[0]` (a strictly larger count is
needed to displace the current best, so ties keep the earlier
candidate; the tie order of the library call is unspecified). -/
def modeOf (vals : List String) : Option String :=
  vals.dedup.foldl
    (fun acc c =>
      match acc with
      | none => some c
      | some b => if vals.count b < vals.count c then some c else some b)
    none

/-- The conflicting-override branch of `get_dept_mappings_for_common`:
the most frequent saved dept is used only when it is FBA or FBM and
covers at least half of the group's rows (`dept_counts.iloc[0] /
len(group) >= 0.5`); otherwise the group stays unresolved. -/
def resolveConflict (vals : List String) (n : ℕ) : Option String :=
  match modeOf vals with
  | none => none
  | some m =>
      if (m = "FBA" ∨ m = "FBM") ∧ n ≤ 2 * vals.count m then some m
      else none

/-- Dispatch on the distinct saved depts of a group: no saved dept means
unresolved; a single agreed dept in {FBA, FBM} is used directly; any
conflict goes to the majority rule. -/
def chooseByDistinct (vals : List String) (n : ℕ) :
    List String → Option String
  | [] => none
  | [d] => if d = "FBA" ∨ d = "FBM" then some d else resolveConflict vals n
  | _ :: _ :: _ => resolveConflict vals n

/-- Per-group resolution of `get_dept_mappings_for_common`: `saved` is
the `_saved_dept` column of the group's rows (`none` where no mapping
was saved), and the group size is the full row count including rows
without a saved dept. -/
def resolveGroup (saved : List (Option String)) : Option String :=
  chooseByDistinct (saved.filterMap id) saved.length
    ((saved.filterMap id).dedup)

theorem modeOf_foldl_spec (vals : List String) (cands : List String) :
    ∀ (acc : Option String) (m : String),
      cands.foldl
          (fun acc c =>
            match acc with
            | none => some c
            | some b =>
                if vals.count b < vals.count c then some c else some b)
          acc = some m →
        (∀ c ∈ cands, vals.count c ≤ vals.count m) ∧
          (∀ b, acc = some b → vals.count b ≤ vals.count m) ∧
          (acc = some m ∨ m ∈ cands) := by
  induction cands with
  | nil =>
      intro acc m h
      simp only [List.foldl_nil] at h
      refine ⟨by simp, ?_, Or.inl h⟩
      intro b hb
      rw [hb] at h
      cases h
      exact le_refl _
  | cons c cs ih =>
      intro acc m h
      simp only [List.foldl_cons] at h
      have hstep : ∃ x, (match acc with
          | none => some c
          | some b =>
              if vals.count b < vals.count c then some c else some b) =
            some x ∧ vals.count c ≤ vals.count x ∧
            (∀ b, acc = some b → vals.count b ≤ vals.count x) ∧
            (x = c ∨ acc = some x) := by
        cases acc with
        | none =>
            exact ⟨c, rfl, le_refl _, by simp, Or.inl rfl⟩
        | some b =>
            by_cases hbc : vals.count b < vals.count c
            · refine ⟨c, by simp [hbc], le_refl _, ?_, Or.inl rfl⟩
              intro b2 hb2
              cases hb2
              exact le_of_lt hbc
            · refine ⟨b, by simp [hbc], not_lt.mp hbc, ?_, Or.inr rfl⟩
              intro b2 hb2
              cases hb2
              exact le_refl _
      obtain ⟨x, hx, hcx, hbx, hxor⟩ := hstep
      rw [hx] at h
      obtain ⟨hmax, hacc, hmem⟩ := ih (some x) m h
      have hxm : vals.count x ≤ vals.count m := hacc x rfl
      refine ⟨?_, ?_, ?_⟩
      · intro e he
        rcases List.mem_cons.mp he with he | he
        · exact he ▸ le_trans hcx hxm
        · exact hmax e he
      · intro b hb
        exact le_trans (hbx b hb) hxm
      · rcases hmem with hem | hem
        · have hxm2 : x = m := by
            injection hem
          subst hxm2
          rcases hxor with h1 | h1
          · exact Or.inr (by rw [h1]; exact List.mem_cons_self c cs)
          · exact Or.inl h1
        · exact Or.inr (List.mem_cons_of_mem c hem)

theorem modeOf_max (vals : List String) (m : String)
    (h : modeOf vals = some m) :
    (∀ c ∈ vals, vals.count c ≤ vals.count m) ∧ m ∈ vals := by
  obtain ⟨hmax, _, hmem⟩ := modeOf_foldl_spec vals vals.dedup none m h
  refine ⟨fun c hc => hmax c (List.mem_dedup.mpr hc), ?_⟩
  rcases hmem with h0 | h1
  · cases h0
  · exact List.mem_dedup.mp h1

theorem resolveConflict_of_modeOf_none (vals : List String) (n : ℕ)
    (hm : modeOf vals = none) : resolveConflict vals n = none := by
  unfold resolveConflict
  rw [hm]

theorem resolveConflict_of_modeOf_some (vals : List String) (n : ℕ)
    (m : String) (hm : modeOf vals = some m) :
    resolveConflict vals n =
      if (m = "FBA" ∨ m = "FBM") ∧ n ≤ 2 * vals.count m then some m
      else none := by
  unfold resolveConflict
  rw [hm]

theorem dedup_singleton_of_all_eq {l : List String} {d : String}
    (hne : l ≠ []) (hall : ∀ v ∈ l, v = d) : l.dedup = [d] := by
  have hdne : l.dedup ≠ [] := by
    intro h0
    exact hne ((List.dedup_eq_nil l).mp h0)
  have hdall : ∀ v ∈ l.dedup, v = d := fun v hv =>
    hall v (List.mem_dedup.mp hv)
  have hnd : l.dedup.Nodup := List.nodup_dedup l
  rcases hd : l.dedup with _ | ⟨x, xs⟩
  · exact absurd hd hdne
  · have hx : x = d := hdall x (hd ▸ List.mem_cons_self x xs)
    rcases hxs : xs with _ | ⟨y, ys⟩
    · rw [hx]
    · exfalso
      have hy : y = d := hdall y (by
        rw [hd, hxs]
        exact List.mem_cons_of_mem x (List.mem_cons_self y ys))
      have : ¬ x ∈ xs := by
        have := hd ▸ hnd
        exact (List.nodup_cons.mp this).1
      rw [hxs, hx, ← hy] at this
      exact this (List.mem_cons_self y ys)

/-- C8: for a description group whose saved historical overrides all lie
in {FBA, FBM}: when every saved override agrees on one dept, that dept
is used for the group; when FBA and FBM conflict, a dept is assigned
only if its count is maximal among the saved overrides and covers at
least half of the group's rows; when every dept covers strictly less
than half of the group's rows, the group stays unresolved. -/
theorem conflicting_override_majority (saved : List (Option String))
    (hvals : ∀ v : String, some v ∈ saved → v = "FBA" ∨ v = "FBM") :
    ((saved.filterMap id) ≠ [] →
      ∀ d, (∀ v ∈ saved.filterMap id, v = d) →
        resolveGroup saved = some d) ∧
      (("FBA" ∈ saved.filterMap id ∧ "FBM" ∈ saved.filterMap id) →
        ∀ d, resolveGroup saved = some d →
          (∀ e ∈ saved.filterMap id,
              (saved.filterMap id).count e ≤ (saved.filterMap id).count d) ∧
            saved.length ≤ 2 * (saved.filterMap id).count d) ∧
      (("FBA" ∈ saved.filterMap id ∧ "FBM" ∈ saved.filterMap id ∧
          ∀ d ∈ saved.filterMap id,
            2 * (saved.filterMap id).count d < saved.length) →
        resolveGroup saved = none) := by
  refine ⟨?_, ?_, ?_⟩
  · intro hne d hall
    have hded : (saved.filterMap id).dedup = [d] :=
      dedup_singleton_of_all_eq hne hall
    have hd : d ∈ saved.filterMap id := by
      rcases hx : saved.filterMap id with _ | ⟨v, vs⟩
      · exact absurd hx hne
      · have hvd := hall v (by rw [hx]; exact List.mem_cons_self v vs)
        rw [← hvd]
        exact List.mem_cons_self v vs
    have hdor : d = "FBA" ∨ d = "FBM" := by
      refine hvals d ?_
      rcases List.mem_filterMap.mp hd with ⟨a, ha, had⟩
      simp only [id] at had
      rw [← had]
      exact ha
    rw [resolveGroup, hded]
    simp [chooseByDistinct, hdor]
  · intro hconf d hres
    have hbranch : resolveGroup saved =
        resolveConflict (saved.filterMap id) saved.length := by
      rcases hd : (saved.filterMap id).dedup with _ | ⟨x, _ | ⟨y, t⟩⟩
      · exfalso
        have := List.mem_dedup.mpr hconf.1
        rw [hd] at this
        cases this
      · exfalso
        have h1 := List.mem_dedup.mpr hconf.1
        have h2 := List.mem_dedup.mpr hconf.2
        rw [hd] at h1 h2
        have e1 : "FBA" = x := List.mem_singleton.mp h1
        have e2 : "FBM" = x := List.mem_singleton.mp h2
        rw [← e2] at e1
        exact absurd e1 (by decide)
      · rw [resolveGroup, hd]
        rfl
    rw [hbranch] at hres
    rcases hm : modeOf (saved.filterMap id) with _ | m
    · rw [resolveConflict_of_modeOf_none _ _ hm] at hres
      cases hres
    · rw [resolveConflict_of_modeOf_some _ _ m hm] at hres
      by_cases hg : (m = "FBA" ∨ m = "FBM") ∧
          saved.length ≤ 2 * (saved.filterMap id).count m
      · rw [if_pos hg] at hres
        have hmd : m = d := by
          injection hres
        obtain ⟨hmax, _⟩ := modeOf_max (saved.filterMap id) m hm
        exact ⟨fun e he => hmd ▸ hmax e he, hmd ▸ hg.2⟩
      · rw [if_neg hg] at hres
        cases hres
  · intro ⟨hA, hB, hall⟩
    have hbranch : resolveGroup saved =
        resolveConflict (saved.filterMap id) saved.length := by
      rcases hd : (saved.filterMap id).dedup with _ | ⟨x, _ | ⟨y, t⟩⟩
      · exfalso
        have := List.mem_dedup.mpr hA
        rw [hd] at this
        cases this
      · exfalso
        have h1 := List.mem_dedup.mpr hA
        have h2 := List.mem_dedup.mpr hB
        rw [hd] at h1 h2
        have e1 : "FBA" = x := List.mem_singleton.mp h1
        have e2 : "FBM" = x := List.mem_singleton.mp h2
        rw [← e2] at e1
        exact absurd e1 (by decide)
      · rw [resolveGroup, hd]
        rfl
    rw [hbranch]
    rcases hm : modeOf (saved.filterMap id) with _ | m
    · exact resolveConflict_of_modeOf_none _ _ hm
    · obtain ⟨_, hmem⟩ := modeOf_max (saved.filterMap id) m hm
      have hng : ¬ ((m = "FBA" ∨ m = "FBM") ∧
          saved.length ≤ 2 * (saved.filterMap id).count m) := by
        rintro ⟨_, hle⟩
        exact absurd hle (not_le.mpr (hall m hmem))
      rw [resolveConflict_of_modeOf_some _ _ m hm, if_neg hng]

/-- Witness for C8: a group of four rows with saved overrides
FBA, FBA, FBM and one unsaved row resolves to FBA, whose count is
maximal and covers exactly half of the group. -/
theorem conflicting_override_majority_witness :
    resolveGroup [some "FBA", some "FBA", some "FBM", none] = some "FBA" ∧
      (∀ e ∈ ([some "FBA", some "FBA", some "FBM",
          none] : List (Option String)).filterMap id,
        (([some "FBA", some "FBA", some "FBM",
            none] : List (Option String)).filterMap id).count e ≤
          (([some "FBA", some "FBA", some "FBM",
              none] : List (Option String)).filterMap id).count "FBA") ∧
      ([some "FBA", some "FBA", some "FBM",
          none] : List (Option String)).length ≤
        2 * (([some "FBA", some "FBA", some "FBM",
            none] : List (Option String)).filterMap id).count "FBA" := by
  have hres : resolveGroup [some "FBA", some "FBA", some "FBM", none] =
      some "FBA" := by decide
  have hv : ∀ v : String,
      some v ∈ ([some "FBA", some "FBA", some "FBM",
        none] : List (Option String)) → v = "FBA" ∨ v = "FBM" := by
    intro v hvmem
    simp at hvmem
    tauto
  have hc := (conflicting_override_majority
    [some "FBA", some "FBA", some "FBM", none] hv).2.1
    ⟨by decide, by decide⟩ "FBA" hres
  exact ⟨hres, hc.1, hc.2⟩

/-- A COMMON transaction row entering a consolidation merge: reference
id, transaction date (possibly null) and amount. -/
structure CommonTxn where
  refId : String
  txnDate : Option ℤ
  amt : ℚ
deriving DecidableEq

/-- A row of the in-memory reconciliation table touched by the merge:
reference id, transaction date, amount, reconciliation-run id, vendor
prefix, dept and category. -/
structure RecoRow where
  refId : String
  txnDate : Option ℤ
  amt : Option ℚ
  recoId : Option String
  vendor : String
  dept : String
  category : String
deriving DecidableEq

/-- `.unique().tolist()` on a string column: keep the first occurrence
of each value, in order. -/
def uniqueStrings : List String → List String → List String
  | [], _ => []
  | x :: xs, seen =>
      if x ∈ seen then uniqueStrings xs seen
      else x :: uniqueStrings xs (x :: seen)

/-- The consolidation merge of one description group: every
reconciliation row whose reference id is among the group's ids is
removed and one synthetic row is appended, carrying the first reference
id as primary, the supplied (summed) amount, the first non-null
transaction date of the group's rows, and the first existing non-null
`Reco_ID` of the removed rows.  Returns the updated table and the
synthetic row. -/
def mergeCommonGroup (reco : List RecoRow) (matching : List CommonTxn)
    (amount : ℚ) (deptv catv vend : String) : List RecoRow × RecoRow :=
  let ids := uniqueStrings (matching.map (fun c => c.refId)) []
  let newRow : RecoRow :=
    { refId := ids.headD ""
      txnDate := (matching.filterMap (fun c => c.txnDate)).head?
      amt := some amount
      recoId := (uniqueStrings ((reco.filter
          (fun r => decide (r.refId ∈ ids))).filterMap
            (fun r => r.recoId)) []).head?
      vendor := vend
      dept := deptv
      category := catv }
  ((reco.filter (fun r => decide (r.refId ∉ ids))) ++ [newRow], newRow)

/-- C9 counterexample: a group whose rows carry the dates 10 and then 5
(in row order) is merged into a synthetic row with date 10 — the first
non-null date in row order — although the earliest date of the merged
transactions is 5. -/
theorem merge_txn_date_not_earliest_counterexample :
    (mergeCommonGroup []
        [⟨"r1", some 10, 60⟩, ⟨"r2", some 5, 40⟩] 100 "FBM" "ONLY FBM"
        "V").2.txnDate = some 10 ∧
      (([⟨"r1", some 10, 60⟩,
          ⟨"r2", some 5, 40⟩] : List CommonTxn).filterMap
        (fun c => c.txnDate)).min? = some 5 ∧
      (some (10 : ℤ)) ≠ some (5 : ℤ) := by
  refine ⟨rfl, by decide, by decide⟩

theorem uniqueStrings_of_all_eq_mem {l : List String} {seen : List String}
    {a : String} (hall : ∀ x ∈ l, x = a) (hmem : a ∈ seen) :
    uniqueStrings l seen = [] := by
  induction l generalizing seen with
  | nil => rfl
  | cons x xs ih =>
      have hx : x = a := hall x (List.mem_cons_self x xs)
      rw [uniqueStrings, if_pos (hx ▸ hmem)]
      exact ih (fun y hy => hall y (List.mem_cons_of_mem x hy)) hmem

theorem uniqueStrings_of_all_eq {l : List String} {a : String}
    (hne : l ≠ []) (hall : ∀ x ∈ l, x = a) :
    uniqueStrings l [] = [a] := by
  rcases l with _ | ⟨x, xs⟩
  · exact absurd rfl hne
  · have hx : x = a := hall x (List.mem_cons_self x xs)
    rw [uniqueStrings, if_neg (List.not_mem_nil x)]
    rw [hx, uniqueStrings_of_all_eq_mem
      (fun y hy => hall y (List.mem_cons_of_mem x hy))
      (List.mem_cons_self a [])]

/-- C9 (amended): the consolidation merge produces one synthetic row
whose primary reference id is the first reference id of the group,
whose amount is the supplied group sum, whose transaction date is the
first non-null transaction date of the group in row order (not
necessarily the earliest), and which carries the group's
already-assigned `Reco_ID` whenever the replaced rows agree on one. -/
theorem consolidation_merge_amended (reco : List RecoRow)
    (matching : List CommonTxn) (amount : ℚ) (deptv catv vend : String)
    (hne : matching ≠ []) :
    (mergeCommonGroup reco matching amount deptv catv vend).2.refId =
        (matching.headD ⟨"", none, 0⟩).refId ∧
      (mergeCommonGroup reco matching amount deptv catv vend).2.amt =
        some amount ∧
      (mergeCommonGroup reco matching amount deptv catv vend).2.txnDate =
        (matching.filterMap (fun c => c.txnDate)).head? ∧
      ∀ ρ : String,
        (∀ r ∈ reco,
          r.refId ∈ uniqueStrings (matching.map (fun c => c.refId)) [] →
            r.recoId = some ρ ∨ r.recoId = none) →
        (∃ r ∈ reco,
          r.refId ∈ uniqueStrings (matching.map (fun c => c.refId)) [] ∧
            r.recoId = some ρ) →
        (mergeCommonGroup reco matching amount deptv catv vend).2.recoId =
          some ρ := by
  refine ⟨?_, rfl, rfl, ?_⟩
  · rcases matching with _ | ⟨m, ms⟩
    · exact absurd rfl hne
    · show (uniqueStrings (m.refId :: ms.map (fun c => c.refId)) []).headD ""
          = m.refId
      rw [uniqueStrings, if_neg (List.not_mem_nil m.refId)]
      rfl
  · intro ρ hall hex
    show (uniqueStrings ((reco.filter (fun r =>
        decide (r.refId ∈ uniqueStrings (matching.map
          (fun c => c.refId)) []))).filterMap
            (fun r => r.recoId)) []).head? = some ρ
    have hallmem : ∀ x ∈ (reco.filter (fun r =>
        decide (r.refId ∈ uniqueStrings (matching.map
          (fun c => c.refId)) []))).filterMap (fun r => r.recoId),
        x = ρ := by
      intro x hx
      rcases List.mem_filterMap.mp hx with ⟨r, hr, hrx⟩
      have hr2 := List.mem_filter.mp hr
      have hrin : r.refId ∈ uniqueStrings (matching.map
          (fun c => c.refId)) [] := of_decide_eq_true hr2.2
      rcases hall r hr2.1 hrin with h | h
      · rw [h] at hrx
        injection hrx with h2
        exact h2.symm
      · rw [h] at hrx
        cases hrx
    have hnonempty : (reco.filter (fun r =>
        decide (r.refId ∈ uniqueStrings (matching.map
          (fun c => c.refId)) []))).filterMap (fun r => r.recoId) ≠ [] := by
      rcases hex with ⟨r, hr, hrin, hrec⟩
      have hrf : r ∈ reco.filter (fun r =>
          decide (r.refId ∈ uniqueStrings (matching.map
            (fun c => c.refId)) [])) :=
        List.mem_filter.mpr ⟨hr, decide_eq_true hrin⟩
      have : ρ ∈ (reco.filter (fun r =>
          decide (r.refId ∈ uniqueStrings (matching.map
            (fun c => c.refId)) []))).filterMap (fun r => r.recoId) :=
        List.mem_filterMap.mpr ⟨r, hrf, by rw [hrec]⟩
      exact List.ne_nil_of_mem this
    rw [uniqueStrings_of_all_eq hnonempty hallmem]
    rfl

/-- Witness for C9 (amended): merging the two-row group (r1 then r2)
whose sole stored row for r1 carries `Reco_ID` RID yields a synthetic
row with primary id r1, amount 100, the first transaction date 10, and
the preserved `Reco_ID` RID. -/
theorem consolidation_merge_amended_witness :
    (mergeCommonGroup [⟨"r1", some 10, some 60, some "RID", "V", "FBM",
          "COMMON"⟩]
        [⟨"r1", some 10, 60⟩, ⟨"r2", some 5, 40⟩] 100 "FBM" "ONLY FBM"
        "V").2.refId = "r1" ∧
      (mergeCommonGroup [⟨"r1", some 10, some 60, some "RID", "V", "FBM",
          "COMMON"⟩]
        [⟨"r1", some 10, 60⟩, ⟨"r2", some 5, 40⟩] 100 "FBM" "ONLY FBM"
        "V").2.amt = some 100 ∧
      (mergeCommonGroup [⟨"r1", some 10, some 60, some "RID", "V", "FBM",
          "COMMON"⟩]
        [⟨"r1", some 10, 60⟩, ⟨"r2", some 5, 40⟩] 100 "FBM" "ONLY FBM"
        "V").2.txnDate = some 10 ∧
      (mergeCommonGroup [⟨"r1", some 10, some 60, some "RID", "V", "FBM",
          "COMMON"⟩]
        [⟨"r1", some 10, 60⟩, ⟨"r2", some 5, 40⟩] 100 "FBM" "ONLY FBM"
        "V").2.recoId = some "RID" := by
  have h := consolidation_merge_amended
    [⟨"r1", some 10, some 60, some "RID", "V", "FBM", "COMMON"⟩]
    [⟨"r1", some 10, 60⟩, ⟨"r2", some 5, 40⟩] 100 "FBM" "ONLY FBM" "V"
    (by decide)
  refine ⟨h.1, h.2.1, h.2.2.1, ?_⟩
  refine h.2.2.2 "RID" ?_ ?_
  · intro r hr hrin
    have : r = ⟨"r1", some 10, some 60, some "RID", "V", "FBM",
        "COMMON"⟩ := by
      rcases List.mem_cons.mp hr with h1 | h1
      · exact h1
      · cases h1
    rw [this]
    exact Or.inl rfl
  · refine ⟨⟨"r1", some 10, some 60, some "RID", "V", "FBM", "COMMON"⟩,
      List.mem_cons_self _ _, ?_, rfl⟩
    decide

/-- Python `.strip()` as the code applies it to reference ids: drop
leading and trailing whitespace. -/
def strip (s : String) : String :=
  ⟨((s.data.dropWhile Char.isWhitespace).reverse.dropWhile
      Char.isWhitespace).reverse⟩

/-- Python `.upper()`: upper-case every character. -/
def upper (s : String) : String :=
  ⟨s.data.map Char.toUpper⟩

/-- `save_dept_mappings`: a no-op unless the dept is exactly `"FBA"` or
`"FBM"` and the reference id list is nonempty; otherwise the stored ids
are normalized (stripped), every stored row whose normalized id matches
a supplied (stripped) id is removed, and one new row
`(stripped id, upper-cased dept)` is appended per supplied occurrence. -/
def saveDeptMappings (store : List (String × String))
    (refIds : List String) (dept : String) : List (String × String) :=
  if (dept = "FBA" ∨ dept = "FBM") ∧ refIds ≠ [] then
    ((store.map (fun x => (strip x.1, x.2))).filter
        (fun x => decide (x.1 ∉ refIds.map strip))) ++
      (refIds.map strip).map (fun r => (r, upper dept))
  else store

/-- C10 counterexample: saving the duplicated id list ["A", "A"] with
dept FBM against a store holding a row for " B " leaves id A with two
mapping rows, not exactly one, and rewrites the stored row's id to its
stripped form, so the original row (" B ", FBA) is gone. -/
theorem save_dept_mappings_duplicate_counterexample :
    saveDeptMappings [(" B ", "FBA")] ["A", "A"] "FBM" =
        [("B", "FBA"), ("A", "FBM"), ("A", "FBM")] ∧
      ((saveDeptMappings [(" B ", "FBA")] ["A", "A"] "FBM").countP
        (fun x => x.1 == "A")) = 2 ∧
      (" B ", "FBA") ∉ saveDeptMappings [(" B ", "FBA")] ["A", "A"] "FBM" := by
  refine ⟨by decide, by decide, by decide⟩

/-- C10 (amended): `save_dept_mappings` is a no-op when the dept is not
exactly FBA or FBM or the id list is empty; when it saves and the
stripped supplied ids are pairwise distinct, every supplied id ends up
with exactly one row holding the upper-cased dept (duplicate supplied
ids would instead produce one row per occurrence), and every stored row
for any other id is preserved with its id stripped. -/
theorem save_dept_mappings_amended (store : List (String × String))
    (refIds : List String) (dept : String) :
    (¬ (dept = "FBA" ∨ dept = "FBM") →
        saveDeptMappings store refIds dept = store) ∧
      (refIds = [] → saveDeptMappings store refIds dept = store) ∧
      ((dept = "FBA" ∨ dept = "FBM") → refIds ≠ [] →
        ((refIds.map strip).Nodup →
          ∀ r ∈ refIds,
            ((saveDeptMappings store refIds dept).countP
              (fun x => x.1 == strip r)) = 1 ∧
              (strip r, upper dept) ∈ saveDeptMappings store refIds dept) ∧
          (∀ x ∈ store, strip x.1 ∉ refIds.map strip →
            (strip x.1, x.2) ∈ saveDeptMappings store refIds dept)) := by
  refine ⟨?_, ?_, ?_⟩
  · intro hd
    rw [saveDeptMappings, if_neg]
    rintro ⟨h1, _⟩
    exact hd h1
  · intro he
    rw [saveDeptMappings, if_neg]
    rintro ⟨_, h2⟩
    exact h2 he
  · intro hd hne
    have hsave : saveDeptMappings store refIds dept =
        ((store.map (fun x => (strip x.1, x.2))).filter
            (fun x => decide (x.1 ∉ refIds.map strip))) ++
          (refIds.map strip).map (fun r => (r, upper dept)) := by
      rw [saveDeptMappings, if_pos ⟨hd, hne⟩]
    constructor
    · intro hnd r hr
      have hrmem : strip r ∈ refIds.map strip :=
        List.mem_map_of_mem strip hr
      constructor
      · rw [hsave, List.countP_append]
        have hkept : ((store.map (fun x => (strip x.1, x.2))).filter
            (fun x => decide (x.1 ∉ refIds.map strip))).countP
              (fun x => x.1 == strip r) = 0 := by
          rw [List.countP_eq_zero]
          intro a ha
          have ha2 := List.mem_filter.mp ha
          have hnotin : a.1 ∉ refIds.map strip := of_decide_eq_true ha2.2
          intro hb
          exact hnotin (beq_iff_eq.mp hb ▸ hrmem)
        have hnew : (((refIds.map strip).map
            (fun r => (r, upper dept))).countP
              (fun x => x.1 == strip r)) =
            (refIds.map strip).count (strip r) := by
          rw [List.countP_map]
          rfl
        rw [hkept, hnew, List.count_eq_one_of_mem hnd hrmem]
      · rw [hsave]
        refine List.mem_append_right _ ?_
        exact List.mem_map_of_mem (fun r => (r, upper dept)) hrmem
    · intro x hx hnotin
      rw [hsave]
      refine List.mem_append_left _ ?_
      refine List.mem_filter.mpr ⟨?_, decide_eq_true hnotin⟩
      exact List.mem_map_of_mem (fun x => (strip x.1, x.2)) hx

/-- Witness for C10 (amended): saving id "A" as FBM against a store
holding ("B", FBA) leaves exactly one row for A holding FBM and keeps
the row for B. -/
theorem save_dept_mappings_amended_witness :
    ((saveDeptMappings [("B", "FBA")] ["A"] "FBM").countP
        (fun x => x.1 == strip "A")) = 1 ∧
      (strip "A", upper "FBM") ∈ saveDeptMappings [("B", "FBA")] ["A"] "FBM" ∧
      (strip "B", "FBA") ∈ saveDeptMappings [("B", "FBA")] ["A"] "FBM" := by
  have h := save_dept_mappings_amended [("B", "FBA")] ["A"] "FBM"
  have h3 := h.2.2 (Or.inr rfl) (by decide)
  have h4 := (h3.1 (by decide)) "A" (List.mem_cons_self "A" [])
  refine ⟨h4.1, h4.2, ?_⟩
  exact h3.2 ("B", "FBA") (List.mem_cons_self _ _) (by decide)

end ErgodeReconcile
